import Mathlib

/-!
Verification development for the watcher core of gowatchrun.

The Go source (package watcher) is shallowly embedded below:

- Go strings are modeled as lists of characters (all inputs of interest
  are ASCII, where Go byte indexing and rune decoding coincide).
- The fsnotify Op bitmask is a Nat; Op.Has and Op.String follow fsnotify.
- Go standard library helpers used by the watcher, that is
  filepath.Base, filepath.Ext, filepath.Dir, filepath.Clean,
  filepath.Join, filepath.Match and strings.TrimSuffix, are translated
  from their Go implementations (unix build: separator is the slash,
  backslash is an escape character in patterns).  Recursions that Go
  writes as loops consuming at least one character per iteration are
  written with an explicit fuel argument; every call site passes fuel
  larger than the number of iterations the loop can make, so the
  out-of-fuel branch is unreachable.
- os.Exit(1) during configuration is modeled as Except.error 1.
- The coordinator goroutine of Run is modeled as a step function over
  an explicit state (debounce timer deadline and lastEventData), driven
  by the inputs of its select statement.  Absolute times are Nat.
- Go map iteration order is unspecified; functions that range over a
  map take the iteration order as an explicit list parameter.
-/

abbrev GoStr := List Char

def pathSeparator : Char := '/'

/-- strings.ToLower, restricted to the ASCII case mapping. -/
def goToLower (s : GoStr) : GoStr := s.map Char.toLower

/-! fsnotify operation bitmask (fsnotify.Op).  The four restricted kinds
use the handcrafted constants from the watcher source. -/

def opCreate : Nat := 1
def opWrite : Nat := 2
def opRemove : Nat := 4
def opRename : Nat := 8
def opChmod : Nat := 16
def opOpen : Nat := 32
def opRead : Nat := 64
def opCloseWrite : Nat := 128
def opCloseRead : Nat := 256

/-- fsnotify Op.Has: o&h != 0. -/
def hasOp (o h : Nat) : Bool := decide (o &&& h ≠ 0)

/-- fsnotify Op.String. -/
def opString (o : Nat) : GoStr :=
  let parts : GoStr :=
    (if hasOp o opCreate then "|CREATE".data else []) ++
    (if hasOp o opRemove then "|REMOVE".data else []) ++
    (if hasOp o opWrite then "|WRITE".data else []) ++
    (if hasOp o opOpen then "|OPEN".data else []) ++
    (if hasOp o opRead then "|READ".data else []) ++
    (if hasOp o opCloseWrite then "|CLOSE_WRITE".data else []) ++
    (if hasOp o opCloseRead then "|CLOSE_READ".data else []) ++
    (if hasOp o opRename then "|RENAME".data else []) ++
    (if hasOp o opChmod then "|CHMOD".data else [])
  if parts = [] then "[no events]".data else parts.tail

/-! Go standard library path helpers (unix). -/

/-- filepath.Base: strip trailing separators, keep the last element. -/
def goBase (path : GoStr) : GoStr :=
  if path = [] then ".".data
  else
    let p := (path.reverse.dropWhile (fun c => c == pathSeparator)).reverse
    let p := (p.reverse.takeWhile (fun c => c != pathSeparator)).reverse
    if p = [] then [pathSeparator] else p

/-- Inner scan of filepath.Ext over the reversed path: walk from the last
character toward the front, stopping at a separator, returning the
suffix from the last dot. -/
def goExtRev : GoStr → GoStr → GoStr
  | [], _ => []
  | c :: front, acc =>
    if c = pathSeparator then []
    else if c = '.' then c :: acc
    else goExtRev front (c :: acc)

/-- filepath.Ext: suffix of the final element beginning at its last dot. -/
def goExt (path : GoStr) : GoStr := goExtRev path.reverse []

/-- strings.TrimSuffix. -/
def trimSuffix (s suffix : GoStr) : GoStr :=
  if suffix.isSuffixOf s then s.take (s.length - suffix.length) else s

/-- The backtracking index search of the dotdot case of filepath.Clean:
starting from w, decrement while w is above dotdot and the buffer
character at w is not a separator. -/
def cleanBackFrom (out : List Char) (dotdot : Nat) : Nat → Nat
  | 0 => 0
  | Nat.succ w =>
    if Nat.succ w > dotdot && !(out.getD (Nat.succ w) pathSeparator == pathSeparator) then
      cleanBackFrom out dotdot w
    else Nat.succ w

/-- Main loop of filepath.Clean: r scans path, out is the output buffer,
dotdot bounds backtracking.  Fuel bounds the number of iterations; each
iteration advances r by at least one, so fuel = n suffices. -/
def cleanLoop (path : List Char) (n : Nat) (rooted : Bool) :
    Nat → Nat → Nat → List Char → List Char
  | 0, _, _, out => out
  | Nat.succ fuel, r, dotdot, out =>
    if r < n then
      let c := path.getD r pathSeparator
      if c = pathSeparator then
        cleanLoop path n rooted fuel (r + 1) dotdot out
      else if c = '.' && (r + 1 = n || path.getD (r + 1) ' ' == pathSeparator) then
        cleanLoop path n rooted fuel (r + 1) dotdot out
      else if c = '.' && path.getD (r + 1) ' ' == '.' &&
          (r + 2 = n || path.getD (r + 2) ' ' == pathSeparator) then
        if out.length > dotdot then
          cleanLoop path n rooted fuel (r + 2) dotdot
            (out.take (cleanBackFrom out dotdot (out.length - 1)))
        else if !rooted then
          let out2 := (if out.length > 0 then out ++ [pathSeparator] else out) ++ ['.', '.']
          cleanLoop path n rooted fuel (r + 2) out2.length out2
        else
          cleanLoop path n rooted fuel (r + 2) dotdot out
      else
        let out2 := if (rooted && out.length ≠ 1) || (!rooted && out.length ≠ 0) then
          out ++ [pathSeparator] else out
        let seg := c :: (path.drop (r + 1)).takeWhile (fun d => d != pathSeparator)
        cleanLoop path n rooted fuel (r + seg.length) dotdot (out2 ++ seg)
    else out

/-- filepath.Clean (unix: no volume name, FromSlash is the identity). -/
def goClean (path : GoStr) : GoStr :=
  if path = [] then ".".data
  else
    let n := path.length
    let rooted := path.headD ' ' == pathSeparator
    let out :=
      if rooted then cleanLoop path n true n 1 1 [pathSeparator]
      else cleanLoop path n false n 0 0 []
    if out = [] then ".".data else out

/-- filepath.Dir: everything up to and including the final separator,
cleaned. -/
def goDir (path : GoStr) : GoStr :=
  goClean ((path.reverse.dropWhile (fun c => c != pathSeparator)).reverse)

/-- filepath.Join for two elements. -/
def goJoin (a b : GoStr) : GoStr :=
  if a ≠ [] then goClean (a ++ [pathSeparator] ++ b)
  else if b ≠ [] then goClean b
  else []

/-! filepath.Match and its helpers (unix build). -/

/-- Chunk scan of scanChunk: length of the prefix up to the next star
outside a bracket range, honouring backslash escapes. -/
def scanChunkLen : GoStr → Bool → Nat
  | [], _ => 0
  | c :: rest, inrange =>
    if c = '\\' then
      match rest with
      | [] => 1
      | _ :: rest2 => 2 + scanChunkLen rest2 inrange
    else if c = '[' then 1 + scanChunkLen rest true
    else if c = ']' then 1 + scanChunkLen rest false
    else if c = '*' then (if inrange then 1 + scanChunkLen rest inrange else 0)
    else 1 + scanChunkLen rest inrange

/-- scanChunk: strip leading stars, then split off the chunk before the
next top-level star. -/
def scanChunk (pattern : GoStr) : Bool × GoStr × GoStr :=
  let star := pattern.headD ' ' == '*'
  let p := pattern.dropWhile (fun c => c == '*')
  let i := scanChunkLen p false
  (star, p.take i, p.drop i)

/-- getEsc: read a possibly escaped character of a bracket class.  The
character must not be a dash or a closing bracket, and must not be the
final character of the chunk. -/
def getEsc (chunk : GoStr) : Except Unit (Char × GoStr) :=
  match chunk with
  | [] => Except.error ()
  | c :: rest =>
    if c = '-' || c = ']' then Except.error ()
    else if c = '\\' then
      match rest with
      | [] => Except.error ()
      | d :: rest2 => if rest2 = [] then Except.error () else Except.ok (d, rest2)
    else if rest = [] then Except.error () else Except.ok (c, rest)

/-- Range-parsing loop of the bracket-class case of matchChunk.  Each
iteration consumes at least one chunk character, so fuel larger than the
chunk length suffices. -/
def parseRanges (r : Char) : Nat → GoStr → Bool → Nat → Except Unit (GoStr × Bool)
  | 0, _, _, _ => Except.error ()
  | Nat.succ fuel, chunk, m, nrange =>
    if chunk.headD ' ' == ']' && nrange > 0 then Except.ok (chunk.tail, m)
    else
      match getEsc chunk with
      | Except.error _ => Except.error ()
      | Except.ok (lo, ch2) =>
        match (if ch2.headD ' ' == '-' then getEsc ch2.tail else Except.ok (lo, ch2)) with
        | Except.error _ => Except.error ()
        | Except.ok (hi, ch3) =>
          parseRanges r fuel ch3
            (m || decide (lo.toNat ≤ r.toNat ∧ r.toNat ≤ hi.toNat)) (nrange + 1)

/-- matchChunk: match a star-free chunk at the start of s.  Returns the
rest of s and whether the match succeeded; a malformed pattern is an
error.  The failed flag keeps scanning for syntax errors after a
mismatch.  Each step consumes at least one chunk character. -/
def matchChunk : Nat → GoStr → GoStr → Bool → Except Unit (GoStr × Bool)
  | 0, _, _, _ => Except.error ()
  | Nat.succ fuel, chunk, s, failed0 =>
    match chunk with
    | [] => if failed0 then Except.ok ([], false) else Except.ok (s, true)
    | c :: rest =>
      let failed := failed0 || decide (s = [])
      if c = '[' then
        let r := if failed then Char.ofNat 0 else s.headD (Char.ofNat 0)
        let s2 := if failed then s else s.tail
        let negated := rest.headD ' ' == '^'
        let ch := if negated then rest.tail else rest
        match parseRanges r (ch.length + 1) ch false 0 with
        | Except.error _ => Except.error ()
        | Except.ok (ch3, m) =>
          matchChunk fuel ch3 s2 (failed || (m == negated))
      else if c = '?' then
        if failed then matchChunk fuel rest s true
        else matchChunk fuel rest s.tail (s.headD ' ' == pathSeparator)
      else if c = '\\' then
        match rest with
        | [] => Except.error ()
        | d :: rest2 =>
          if failed then matchChunk fuel rest2 s true
          else matchChunk fuel rest2 s.tail (d != s.headD d)
      else
        if failed then matchChunk fuel rest s true
        else matchChunk fuel rest s.tail (c != s.headD c)

inductive StarScan where
  | errFound : StarScan
  | found : GoStr → StarScan
  | noneFound : StarScan
deriving DecidableEq

/-- The star retry loop of Match: try matching the chunk after skipping
one more character of name, never skipping a separator. -/
def starLoop (chunk : GoStr) (patEmpty : Bool) : GoStr → StarScan
  | [] => StarScan.noneFound
  | c :: restName =>
    if c = pathSeparator then StarScan.noneFound
    else
      match matchChunk (chunk.length + 1) chunk restName false with
      | Except.ok (t, true) =>
        if patEmpty && decide (t ≠ []) then starLoop chunk patEmpty restName
        else StarScan.found t
      | Except.ok (_, false) => starLoop chunk patEmpty restName
      | Except.error _ => StarScan.errFound

/-- The trailing loop of Match: before answering false, check the rest of
the pattern for syntax errors.  Returns true when an error was found. -/
def tailCheck : Nat → GoStr → Bool
  | 0, _ => false
  | Nat.succ fuel, pattern =>
    match pattern with
    | [] => false
    | _ =>
      let sc := scanChunk pattern
      match matchChunk (sc.2.1.length + 1) sc.2.1 [] false with
      | Except.error _ => true
      | Except.ok _ => tailCheck fuel sc.2.2

/-- Handling after a chunk failed to match at the current position:
the star retry loop, then the trailing syntax check. -/
def goMatchAfterFail (star : Bool) (chunk rest name : GoStr) : StarScan :=
  if star then starLoop chunk (decide (rest = [])) name else StarScan.noneFound

/-- Main loop of filepath.Match.  Each iteration consumes at least one
pattern character, so fuel larger than the pattern length suffices. -/
def goMatchLoop : Nat → GoStr → GoStr → Except Unit Bool
  | 0, _, _ => Except.error ()
  | Nat.succ fuel, pattern, name =>
    match pattern with
    | [] => Except.ok (decide (name = []))
    | _ =>
      let sc := scanChunk pattern
      let star := sc.1
      let chunk := sc.2.1
      let rest := sc.2.2
      if star && decide (chunk = []) then
        Except.ok (!name.contains pathSeparator)
      else
        match matchChunk (chunk.length + 1) chunk name false with
        | Except.ok (t, true) =>
          if t = [] ∨ rest ≠ [] then goMatchLoop fuel rest t
          else
            match goMatchAfterFail star chunk rest name with
            | StarScan.found t2 => goMatchLoop fuel rest t2
            | StarScan.errFound => Except.error ()
            | StarScan.noneFound =>
              if tailCheck (rest.length + 1) rest then Except.error () else Except.ok false
        | Except.ok (_, false) =>
          match goMatchAfterFail star chunk rest name with
          | StarScan.found t2 => goMatchLoop fuel rest t2
          | StarScan.errFound => Except.error ()
          | StarScan.noneFound =>
            if tailCheck (rest.length + 1) rest then Except.error () else Except.ok false
        | Except.error _ => Except.error ()

/-- filepath.Match. -/
def goMatch (pattern name : GoStr) : Except Unit Bool :=
  goMatchLoop (pattern.length + 1) pattern name

deriving instance DecidableEq for Except

/-! Data model of the watcher package. -/

/-- fsnotify.Event: a path and an operation bitmask. -/
structure FsEvent where
  Name : GoStr
  Op : Nat
deriving DecidableEq

/-- watcher.EventData, the enriched event handed to the executor. -/
structure EventData where
  Path : GoStr
  Name : GoStr
  Event : GoStr
  Ext : GoStr
  Dir : GoStr
  BaseName : GoStr
deriving DecidableEq

/-- watcher.Config.  DebounceDelay is in abstract time units, zero means
no debounce. -/
structure Config where
  WatchDirs : List GoStr
  ExcludeDirs : List GoStr
  Patterns : List GoStr
  EventTypes : List GoStr
  CommandTmpl : GoStr
  Recursive : Bool
  DebounceDelay : Nat
  ClearTerminal : Bool
deriving DecidableEq

/-! processEventTypes: resolve configured event-type names to the lookup
map of allowed operations.  The Go map with only true values is modeled
as an association list in insertion order; map iteration order is
modeled separately where it matters.  os.Exit(1) is Except.error 1, and
runtime.GOOS being linux or freebsd is the supported flag. -/

/-- Go map assignment m[k] = v on an association list. -/
def mapInsert (m : List (Nat × Bool)) (k : Nat) (v : Bool) : List (Nat × Bool) :=
  if m.any (fun p => p.1 == k) then m.map (fun p => if p.1 == k then (k, v) else p)
  else m ++ [(k, v)]

/-- The lookup built by processEventTypes when some name is all. -/
def allLookup (supported : Bool) : List (Nat × Bool) :=
  let l := mapInsert [] opCreate true
  let l := mapInsert l opWrite true
  let l := mapInsert l opRemove true
  let l := mapInsert l opRename true
  let l := mapInsert l opChmod true
  if supported then
    mapInsert (mapInsert (mapInsert (mapInsert l opOpen true) opRead true) opCloseWrite true)
      opCloseRead true
  else l

/-- The per-name resolution loop of processEventTypes. -/
def processLoop (supported : Bool) : List GoStr → List (Nat × Bool) →
    Except Nat (List (Nat × Bool))
  | [], acc => Except.ok acc
  | t :: rest, acc =>
    let lt := goToLower t
    if lt = "create".data then processLoop supported rest (mapInsert acc opCreate true)
    else if lt = "write".data then processLoop supported rest (mapInsert acc opWrite true)
    else if lt = "remove".data then processLoop supported rest (mapInsert acc opRemove true)
    else if lt = "rename".data then processLoop supported rest (mapInsert acc opRename true)
    else if lt = "chmod".data then processLoop supported rest (mapInsert acc opChmod true)
    else if lt = "open".data then
      (if supported then processLoop supported rest (mapInsert acc opOpen true)
       else Except.error 1)
    else if lt = "read".data then
      (if supported then processLoop supported rest (mapInsert acc opRead true)
       else Except.error 1)
    else if lt = "closewrite".data then
      (if supported then processLoop supported rest (mapInsert acc opCloseWrite true)
       else Except.error 1)
    else if lt = "closeread".data then
      (if supported then processLoop supported rest (mapInsert acc opCloseRead true)
       else Except.error 1)
    else processLoop supported rest acc

/-- watcher.processEventTypes. -/
def processEventTypes (types : List GoStr) (supported : Bool) :
    Except Nat (List (Nat × Bool)) :=
  if types.any (fun t => goToLower t == "all".data) then Except.ok (allLookup supported)
  else processLoop supported types []

/-- Lowercased names of the platform-restricted kinds. -/
def restrictedNames : List GoStr :=
  ["open".data, "read".data, "closewrite".data, "closeread".data]

/-- The operation a recognized lowercased name resolves to. -/
def knownOp (name : GoStr) : Option Nat :=
  if name = "create".data then some opCreate
  else if name = "write".data then some opWrite
  else if name = "remove".data then some opRemove
  else if name = "rename".data then some opRename
  else if name = "chmod".data then some opChmod
  else if name = "open".data then some opOpen
  else if name = "read".data then some opRead
  else if name = "closewrite".data then some opCloseWrite
  else if name = "closeread".data then some opCloseRead
  else none

/-! filterEvent. -/

/-- The kind-match loop of filterEvent: first entry of the map iteration
whose value is true and whose operation is present in the bitmask. -/
def findTrigger (ev : FsEvent) : List (Nat × Bool) → Option Nat
  | [] => none
  | (op, allowed) :: rest =>
    if allowed && hasOp ev.Op op then some op else findTrigger ev rest

/-- The pattern loop of filterEvent and of the recursive-create scan:
a malformed pattern is logged and skipped, a match stops the loop. -/
def anyPatternMatches : List GoStr → GoStr → Bool
  | [], _ => false
  | p :: rest, fileName =>
    match goMatch p fileName with
    | Except.ok true => true
    | _ => anyPatternMatches rest fileName

/-- watcher.filterEvent.  allowedIter is the allowed-operations map in
the iteration order used by this invocation. -/
def filterEvent (event : FsEvent) (allowedIter : List (Nat × Bool))
    (patterns : List GoStr) : Option EventData :=
  match findTrigger event allowedIter with
  | none => none
  | some op =>
    let eventStr := opString op
    let fileName := goBase event.Name
    if anyPatternMatches patterns fileName then
      let ext := goExt fileName
      some { Path := event.Name, Name := fileName, Event := eventStr, Ext := ext,
             Dir := goDir event.Name, BaseName := trimSuffix fileName ext }
    else none

/-! The coordinator loop of Run: an explicit state machine.  Each select
iteration of the goroutine is a step on one input.  The filesystem
answers needed by the recursive-create branch (os.Stat, os.ReadDir,
watcher.Add) arrive bundled with the event. -/

structure DirEntry where
  name : GoStr
  isDir : Bool
deriving DecidableEq

/-- Result of os.Stat: an error, or the IsDir bit of the FileInfo. -/
inductive StatRes where
  | err : StatRes
  | info : Bool → StatRes
deriving DecidableEq

/-- One delivery on watcher.Events together with the filesystem answers
the handler would observe for it. -/
structure RawInput where
  event : FsEvent
  stat : StatRes
  readDir : Except Unit (List DirEntry)
  addWatchOk : Bool
deriving DecidableEq

/-- Coordinator-local state: the armed debounce timer as an absolute
fire deadline, and lastEventData. -/
structure LoopState where
  deadline : Option Nat
  lastEventData : Option EventData
deriving DecidableEq

structure CoordState where
  loop : LoopState
  stopped : Bool
deriving DecidableEq

def initState : CoordState :=
  { loop := { deadline := none, lastEventData := none }, stopped := false }

/-- Dispatch of a normally filtered event (lastEventData is assigned
before the debounce check; with zero delay the executor runs at once). -/
def dispatchEvent (cfg : Config) (now : Nat) (s : LoopState) (ed : EventData) :
    LoopState × List EventData :=
  if cfg.DebounceDelay > 0 then
    ({ deadline := some (now + cfg.DebounceDelay), lastEventData := some ed }, [])
  else
    ({ deadline := s.deadline, lastEventData := some ed }, [ed])

/-- Dispatch of an event synthesized by the recursive-create scan
(lastEventData is assigned only inside the debounce branch). -/
def dispatchSynth (cfg : Config) (now : Nat) (s : LoopState) (ed : EventData) :
    LoopState × List EventData :=
  if cfg.DebounceDelay > 0 then
    ({ deadline := some (now + cfg.DebounceDelay), lastEventData := some ed }, [])
  else (s, [ed])

/-- The per-entry work of the recursive-create scan: a non-directory
entry whose name matches some pattern yields a synthetic CREATE event. -/
def synthFor (patterns : List GoStr) (dirPath : GoStr) (entry : DirEntry) :
    Option EventData :=
  if entry.isDir then none
  else if anyPatternMatches patterns entry.name then
    some { Path := goJoin dirPath entry.name, Name := entry.name, Event := "CREATE".data,
           Ext := goExt entry.name, Dir := dirPath,
           BaseName := trimSuffix entry.name (goExt entry.name) }
  else none

/-- The entry loop of the recursive-create branch. -/
def scanNewDir (cfg : Config) (now : Nat) (dirPath : GoStr) :
    List DirEntry → LoopState → LoopState × List EventData
  | [], s => (s, [])
  | e :: rest, s =>
    match synthFor cfg.Patterns dirPath e with
    | none => scanNewDir cfg now dirPath rest s
    | some ed =>
      let r := dispatchSynth cfg now s ed
      let r2 := scanNewDir cfg now dirPath rest r.1
      (r2.1, r.2 ++ r2.2)

/-- All events the recursive-create scan synthesizes, in entry order. -/
def synthEvents (patterns : List GoStr) (dirPath : GoStr) (entries : List DirEntry) :
    List EventData :=
  entries.filterMap (synthFor patterns dirPath)

/-- Dispatching a list of synthesized events in order. -/
def dispatchList (cfg : Config) (now : Nat) :
    List EventData → LoopState → LoopState × List EventData
  | [], s => (s, [])
  | ed :: rest, s =>
    let r := dispatchSynth cfg now s ed
    let r2 := dispatchList cfg now rest r.1
    (r2.1, r.2 ++ r2.2)

/-- The guard of the recursive-create branch: recursive mode, the Create
bit, and a successful stat reporting a directory. -/
def isDirCreate (cfg : Config) (raw : RawInput) : Bool :=
  cfg.Recursive && hasOp raw.event.Op opCreate && (raw.stat == StatRes.info true)

/-- Handling of one delivery on watcher.Events. -/
def stepEvent (cfg : Config) (allowedIter : List (Nat × Bool)) (now : Nat)
    (s : LoopState) (raw : RawInput) : LoopState × List EventData :=
  if isDirCreate cfg raw then
    match raw.readDir with
    | Except.error _ => (s, [])
    | Except.ok entries => scanNewDir cfg now raw.event.Name entries s
  else
    match filterEvent raw.event allowedIter cfg.Patterns with
    | none => (s, [])
    | some ed => dispatchEvent cfg now s ed

/-- The inputs of the select statement of the coordinator loop. -/
inductive LoopInput where
  | fsEvent : Nat → RawInput → LoopInput
  | timerFire : Nat → LoopInput
  | watchErr : LoopInput
  | eventsClosed : LoopInput
  | errorsClosed : LoopInput
deriving DecidableEq

/-- One iteration of the coordinator loop. -/
def step (cfg : Config) (allowedIter : List (Nat × Bool)) (s : CoordState) :
    LoopInput → CoordState × List EventData
  | inp =>
    if s.stopped then (s, [])
    else
      match inp with
      | LoopInput.fsEvent t raw =>
        let r := stepEvent cfg allowedIter t s.loop raw
        ({ loop := r.1, stopped := false }, r.2)
      | LoopInput.timerFire _ =>
        match s.loop.lastEventData with
        | some ed =>
          ({ loop := { deadline := none, lastEventData := none }, stopped := false }, [ed])
        | none =>
          ({ loop := { deadline := none, lastEventData := none }, stopped := false }, [])
      | LoopInput.watchErr => (s, [])
      | LoopInput.eventsClosed => ({ loop := s.loop, stopped := true }, [])
      | LoopInput.errorsClosed => ({ loop := s.loop, stopped := true }, [])

/-- Running the loop over a sequence of inputs, collecting the executor
invocations in order. -/
def runTrace (cfg : Config) (allowedIter : List (Nat × Bool)) :
    CoordState → List LoopInput → CoordState × List EventData
  | s, [] => (s, [])
  | s, i :: rest =>
    let r := step cfg allowedIter s i
    let r2 := runTrace cfg allowedIter r.1 rest
    (r2.1, r.2 ++ r2.2)

/-- Timing validity of an input sequence: timestamps never go backwards,
an event can be delivered no later than the armed deadline (otherwise
the timer would have fired first), and the timer fires exactly at its
deadline. -/
def wellTimedFrom (cfg : Config) (allowedIter : List (Nat × Bool)) :
    CoordState → Nat → List LoopInput → Bool
  | _, _, [] => true
  | s, now, LoopInput.fsEvent t raw :: rest =>
    decide (now ≤ t) &&
    (match s.loop.deadline with
     | none => true
     | some dl => decide (t ≤ dl)) &&
    wellTimedFrom cfg allowedIter (step cfg allowedIter s (LoopInput.fsEvent t raw)).1 t rest
  | s, now, LoopInput.timerFire t :: rest =>
    decide (now ≤ t) && (s.loop.deadline == some t) &&
    wellTimedFrom cfg allowedIter (step cfg allowedIter s (LoopInput.timerFire t)).1 t rest
  | s, now, i :: rest =>
    wellTimedFrom cfg allowedIter (step cfg allowedIter s i).1 now rest

/-- The clock after consuming a sequence of inputs. -/
def traceClock : Nat → List LoopInput → Nat
  | now, [] => now
  | _, LoopInput.fsEvent t _ :: rest => traceClock t rest
  | _, LoopInput.timerFire t :: rest => traceClock t rest
  | now, _ :: rest => traceClock now rest

/-- Run: resolve the event types (exiting on a fatal configuration
error, before the loop starts), then run the coordinator loop. -/
def runWatcher (cfg : Config) (supported : Bool) (inputs : List LoopInput) :
    Except Nat (List EventData) :=
  match processEventTypes cfg.EventTypes supported with
  | Except.error n => Except.error n
  | Except.ok allowedIter => Except.ok (runTrace cfg allowedIter initState inputs).2

/-- States the coordinator loop can reach from its initial state. -/
inductive Reachable (cfg : Config) (allowedIter : List (Nat × Bool)) : CoordState → Prop where
  | init : Reachable cfg allowedIter initState
  | next : ∀ {s} (i : LoopInput), Reachable cfg allowedIter s →
      Reachable cfg allowedIter (step cfg allowedIter s i).1

/-- An event that takes the normal filter path (the recursive-create
branch does not trigger for it). -/
def plainEvent (cfg : Config) (raw : RawInput) : Bool := !isDirCreate cfg raw

/-- Successive timestamps are nondecreasing with gaps below d. -/
def gapsOk (d : Nat) : List (Nat × RawInput) → Bool
  | [] => true
  | [_] => true
  | p :: q :: rest => decide (p.1 ≤ q.1) && decide (q.1 < p.1 + d) && gapsOk d (q :: rest)

/-- The loop inputs of a burst of event deliveries. -/
def burstTrace (raws : List (Nat × RawInput)) : List LoopInput :=
  raws.map (fun p => LoopInput.fsEvent p.1 p.2)

/-! Concrete fixtures used by witnesses and counterexamples. -/

def cfgZero : Config :=
  ⟨[".".data], [], ["*".data], ["write".data], "echo".data, false, 0, false⟩

def cfgDeb : Config :=
  ⟨[".".data], [], ["*".data], ["write".data], "echo".data, false, 5, false⟩

def cfgRec : Config :=
  ⟨[".".data], [], ["*.txt".data], ["write".data], "echo".data, true, 0, false⟩

def cfgRecDeb : Config :=
  ⟨[".".data], [], ["*.txt".data], ["write".data], "echo".data, true, 5, false⟩

def iterW : List (Nat × Bool) := [(opWrite, true)]

def rawWrite (nm : GoStr) : RawInput :=
  ⟨⟨nm, opWrite⟩, StatRes.err, Except.error (), true⟩

def rawSubDir : RawInput :=
  ⟨⟨"sub".data, opCreate⟩, StatRes.info true, Except.ok [⟨"a.txt".data, false⟩], true⟩

/-! Helper lemmas. -/

theorem scanNewDir_eq_dispatchList (cfg : Config) (now : Nat) (dirPath : GoStr) :
    ∀ (entries : List DirEntry) (s : LoopState),
      scanNewDir cfg now dirPath entries s =
        dispatchList cfg now (synthEvents cfg.Patterns dirPath entries) s := by
  intro entries
  induction entries with
  | nil => intro s; rfl
  | cons e rest ih =>
    intro s
    simp only [scanNewDir, synthEvents, List.filterMap_cons]
    cases h : synthFor cfg.Patterns dirPath e with
    | none => simpa [synthEvents] using ih s
    | some ed => simp [dispatchList, synthEvents, ih]

theorem anyPatternMatches_iff (f : GoStr) :
    ∀ pats : List GoStr,
      anyPatternMatches pats f = true ↔ ∃ p ∈ pats, goMatch p f = Except.ok true := by
  intro pats
  induction pats with
  | nil => simp [anyPatternMatches]
  | cons p rest ih =>
    simp only [anyPatternMatches]
    cases h : goMatch p f with
    | error e => simp [h, ih]
    | ok b =>
      cases b with
      | true => simp [h]
      | false => simp [h, ih]

theorem findTrigger_eq_find (ev : FsEvent) :
    ∀ iter : List (Nat × Bool),
      findTrigger ev iter = (iter.find? (fun q => q.2 && hasOp ev.Op q.1)).map Prod.fst := by
  intro iter
  induction iter with
  | nil => rfl
  | cons q rest ih =>
    rcases q with ⟨op, allowed⟩
    simp only [findTrigger, List.find?]
    by_cases h : (allowed && hasOp ev.Op op) = true
    · simp [h]
    · simp [h, ih]


theorem mem_mapInsert {m : List (Nat × Bool)} {k : Nat} {v : Bool} {p : Nat × Bool}
    (h : p ∈ mapInsert m k v) : p ∈ m ∨ p.1 = k := by
  unfold mapInsert at h
  split at h
  · rcases List.mem_map.mp h with ⟨q, hq, hpq⟩
    by_cases hk : (q.1 == k) = true
    · right
      rw [if_pos hk] at hpq
      rw [← hpq]
    · left
      rw [if_neg hk] at hpq
      rw [← hpq]
      exact hq
  · rcases List.mem_append.mp h with h1 | h1
    · exact Or.inl h1
    · right
      have hpk : p = (k, v) := by simpa using h1
      rw [hpk]

theorem processLoop_ok_keys :
    ∀ (types : List GoStr) (supported : Bool) (acc l : List (Nat × Bool)),
      processLoop supported types acc = Except.ok l →
      ∀ p ∈ l, p ∈ acc ∨ ∃ t ∈ types, knownOp (goToLower t) = some p.1 := by
  intro types
  induction types with
  | nil =>
    intro supported acc l h p hp
    simp only [processLoop] at h
    cases h
    exact Or.inl hp
  | cons t rest ih =>
    intro supported acc l h p hp
    have known : ∀ op : Nat, knownOp (goToLower t) = some op →
        processLoop supported rest (mapInsert acc op true) = Except.ok l →
        p ∈ acc ∨ ∃ u ∈ t :: rest, knownOp (goToLower u) = some p.1 := by
      intro op hko h2
      rcases ih supported (mapInsert acc op true) l h2 p hp with hacc | ⟨u, hu, hku⟩
      · rcases mem_mapInsert hacc with hm | hm
        · exact Or.inl hm
        · exact Or.inr ⟨t, List.mem_cons_self t rest, by rw [hko, hm]⟩
      · exact Or.inr ⟨u, List.mem_cons_of_mem t hu, hku⟩
    have skip : processLoop supported rest acc = Except.ok l →
        p ∈ acc ∨ ∃ u ∈ t :: rest, knownOp (goToLower u) = some p.1 := by
      intro h2
      rcases ih supported acc l h2 p hp with hacc | ⟨u, hu, hku⟩
      · exact Or.inl hacc
      · exact Or.inr ⟨u, List.mem_cons_of_mem t hu, hku⟩
    have sup : ∀ op : Nat, knownOp (goToLower t) = some op →
        (if supported = true then processLoop supported rest (mapInsert acc op true)
         else Except.error 1) = Except.ok l →
        p ∈ acc ∨ ∃ u ∈ t :: rest, knownOp (goToLower u) = some p.1 := by
      intro op hko h2
      by_cases hsup : supported = true
      · rw [if_pos hsup] at h2
        exact known op hko h2
      · rw [if_neg hsup] at h2
        simp at h2
    simp only [processLoop] at h
    by_cases h1 : goToLower t = "create".data
    · rw [if_pos h1] at h
      exact known opCreate (by rw [h1]; decide) h
    rw [if_neg h1] at h
    by_cases h2 : goToLower t = "write".data
    · rw [if_pos h2] at h
      exact known opWrite (by rw [h2]; decide) h
    rw [if_neg h2] at h
    by_cases h3 : goToLower t = "remove".data
    · rw [if_pos h3] at h
      exact known opRemove (by rw [h3]; decide) h
    rw [if_neg h3] at h
    by_cases h4 : goToLower t = "rename".data
    · rw [if_pos h4] at h
      exact known opRename (by rw [h4]; decide) h
    rw [if_neg h4] at h
    by_cases h5 : goToLower t = "chmod".data
    · rw [if_pos h5] at h
      exact known opChmod (by rw [h5]; decide) h
    rw [if_neg h5] at h
    by_cases h6 : goToLower t = "open".data
    · rw [if_pos h6] at h
      exact sup opOpen (by rw [h6]; decide) h
    rw [if_neg h6] at h
    by_cases h7 : goToLower t = "read".data
    · rw [if_pos h7] at h
      exact sup opRead (by rw [h7]; decide) h
    rw [if_neg h7] at h
    by_cases h8 : goToLower t = "closewrite".data
    · rw [if_pos h8] at h
      exact sup opCloseWrite (by rw [h8]; decide) h
    rw [if_neg h8] at h
    by_cases h9 : goToLower t = "closeread".data
    · rw [if_pos h9] at h
      exact sup opCloseRead (by rw [h9]; decide) h
    rw [if_neg h9] at h
    exact skip h

theorem processLoop_err_iff :
    ∀ (types : List GoStr) (acc : List (Nat × Bool)),
      processLoop false types acc = Except.error 1 ↔
        ∃ t ∈ types, goToLower t ∈ restrictedNames := by
  intro types
  induction types with
  | nil => intro acc; simp [processLoop]
  | cons t rest ih =>
    intro acc
    have cont : ∀ acc2 : List (Nat × Bool), goToLower t ∉ restrictedNames →
        (processLoop false rest acc2 = Except.error 1 ↔
          ∃ u ∈ t :: rest, goToLower u ∈ restrictedNames) := by
      intro acc2 hnr
      rw [ih acc2]
      constructor
      · rintro ⟨u, hu, hru⟩
        exact ⟨u, List.mem_cons_of_mem t hu, hru⟩
      · rintro ⟨u, hu, hru⟩
        rcases List.mem_cons.mp hu with rfl | hu2
        · exact absurd hru hnr
        · exact ⟨u, hu2, hru⟩
    have fatal : goToLower t ∈ restrictedNames →
        ((Except.error 1 : Except Nat (List (Nat × Bool))) = Except.error 1 ↔
          ∃ u ∈ t :: rest, goToLower u ∈ restrictedNames) := by
      intro hr
      constructor
      · intro _
        exact ⟨t, List.mem_cons_self t rest, hr⟩
      · intro _
        rfl
    simp only [processLoop]
    by_cases h1 : goToLower t = "create".data
    · rw [if_pos h1]
      exact cont _ (by rw [h1]; decide)
    rw [if_neg h1]
    by_cases h2 : goToLower t = "write".data
    · rw [if_pos h2]
      exact cont _ (by rw [h2]; decide)
    rw [if_neg h2]
    by_cases h3 : goToLower t = "remove".data
    · rw [if_pos h3]
      exact cont _ (by rw [h3]; decide)
    rw [if_neg h3]
    by_cases h4 : goToLower t = "rename".data
    · rw [if_pos h4]
      exact cont _ (by rw [h4]; decide)
    rw [if_neg h4]
    by_cases h5 : goToLower t = "chmod".data
    · rw [if_pos h5]
      exact cont _ (by rw [h5]; decide)
    rw [if_neg h5]
    by_cases h6 : goToLower t = "open".data
    · rw [if_pos h6, if_neg Bool.false_ne_true]
      exact fatal (by rw [h6]; decide)
    rw [if_neg h6]
    by_cases h7 : goToLower t = "read".data
    · rw [if_pos h7, if_neg Bool.false_ne_true]
      exact fatal (by rw [h7]; decide)
    rw [if_neg h7]
    by_cases h8 : goToLower t = "closewrite".data
    · rw [if_pos h8, if_neg Bool.false_ne_true]
      exact fatal (by rw [h8]; decide)
    rw [if_neg h8]
    by_cases h9 : goToLower t = "closeread".data
    · rw [if_pos h9, if_neg Bool.false_ne_true]
      exact fatal (by rw [h9]; decide)
    rw [if_neg h9]
    refine cont _ ?_
    intro hc
    simp only [restrictedNames, List.mem_cons, List.not_mem_nil, or_false] at hc
    rcases hc with hc | hc | hc | hc
    · exact h6 hc
    · exact h7 hc
    · exact h8 hc
    · exact h9 hc

theorem processLoop_ok_of_supported :
    ∀ (types : List GoStr) (acc : List (Nat × Bool)),
      ∃ l, processLoop true types acc = Except.ok l := by
  intro types
  induction types with
  | nil => intro acc; exact ⟨acc, rfl⟩
  | cons t rest ih =>
    intro acc
    simp only [processLoop]
    by_cases h1 : goToLower t = "create".data
    · rw [if_pos h1]; exact ih _
    rw [if_neg h1]
    by_cases h2 : goToLower t = "write".data
    · rw [if_pos h2]; exact ih _
    rw [if_neg h2]
    by_cases h3 : goToLower t = "remove".data
    · rw [if_pos h3]; exact ih _
    rw [if_neg h3]
    by_cases h4 : goToLower t = "rename".data
    · rw [if_pos h4]; exact ih _
    rw [if_neg h4]
    by_cases h5 : goToLower t = "chmod".data
    · rw [if_pos h5]; exact ih _
    rw [if_neg h5]
    by_cases h6 : goToLower t = "open".data
    · rw [if_pos h6, if_pos trivial]; exact ih _
    rw [if_neg h6]
    by_cases h7 : goToLower t = "read".data
    · rw [if_pos h7, if_pos trivial]; exact ih _
    rw [if_neg h7]
    by_cases h8 : goToLower t = "closewrite".data
    · rw [if_pos h8, if_pos trivial]; exact ih _
    rw [if_neg h8]
    by_cases h9 : goToLower t = "closeread".data
    · rw [if_pos h9, if_pos trivial]; exact ih _
    rw [if_neg h9]
    exact ih _

theorem processLoop_error_eq_one :
    ∀ (types : List GoStr) (supported : Bool) (acc : List (Nat × Bool)) (n : Nat),
      processLoop supported types acc = Except.error n → n = 1 := by
  intro types
  induction types with
  | nil =>
    intro supported acc n h
    simp [processLoop] at h
  | cons t rest ih =>
    intro supported acc n h
    have sup : ∀ op : Nat,
        (if supported = true then processLoop supported rest (mapInsert acc op true)
         else Except.error 1) = Except.error n → n = 1 := by
      intro op h2
      by_cases hsup : supported = true
      · rw [if_pos hsup] at h2
        exact ih _ _ _ h2
      · rw [if_neg hsup] at h2
        cases h2
        rfl
    simp only [processLoop] at h
    by_cases h1 : goToLower t = "create".data
    · rw [if_pos h1] at h
      exact ih _ _ _ h
    rw [if_neg h1] at h
    by_cases h2 : goToLower t = "write".data
    · rw [if_pos h2] at h
      exact ih _ _ _ h
    rw [if_neg h2] at h
    by_cases h3 : goToLower t = "remove".data
    · rw [if_pos h3] at h
      exact ih _ _ _ h
    rw [if_neg h3] at h
    by_cases h4 : goToLower t = "rename".data
    · rw [if_pos h4] at h
      exact ih _ _ _ h
    rw [if_neg h4] at h
    by_cases h5 : goToLower t = "chmod".data
    · rw [if_pos h5] at h
      exact ih _ _ _ h
    rw [if_neg h5] at h
    by_cases h6 : goToLower t = "open".data
    · rw [if_pos h6] at h
      exact sup _ h
    rw [if_neg h6] at h
    by_cases h7 : goToLower t = "read".data
    · rw [if_pos h7] at h
      exact sup _ h
    rw [if_neg h7] at h
    by_cases h8 : goToLower t = "closewrite".data
    · rw [if_pos h8] at h
      exact sup _ h
    rw [if_neg h8] at h
    by_cases h9 : goToLower t = "closeread".data
    · rw [if_pos h9] at h
      exact sup _ h
    rw [if_neg h9] at h
    exact ih _ _ _ h

theorem processLoop_ok_of_no_restricted :
    ∀ (types : List GoStr) (acc : List (Nat × Bool)),
      (∀ t ∈ types, goToLower t ∉ restrictedNames) →
      ∃ l, processLoop false types acc = Except.ok l := by
  intro types acc hno
  rcases hres : processLoop false types acc with n | l
  · have h1 : n = 1 := processLoop_error_eq_one types false acc n hres
    rw [h1] at hres
    rcases (processLoop_err_iff types acc).mp hres with ⟨t, ht, hrt⟩
    exact absurd hrt (hno t ht)
  · exact ⟨l, rfl⟩

/-- Claim C5: any occurrence of the name all (case-insensitive, at any
position) makes processEventTypes resolve to the same lookup as the
single-element list containing all: the five portable kinds plus the
four restricted kinds exactly when the platform supports them,
regardless of order, duplicates or other names. -/
theorem all_shorthand (types : List GoStr) (supported : Bool)
    (h : types.any (fun t => goToLower t == "all".data) = true) :
    processEventTypes types supported = processEventTypes ["all".data] supported ∧
    processEventTypes types supported = Except.ok (allLookup supported) ∧
    allLookup true = [(opCreate, true), (opWrite, true), (opRemove, true), (opRename, true),
      (opChmod, true), (opOpen, true), (opRead, true), (opCloseWrite, true),
      (opCloseRead, true)] ∧
    allLookup false = [(opCreate, true), (opWrite, true), (opRemove, true), (opRename, true),
      (opChmod, true)] := by
  refine ⟨?_, ?_, by decide, by decide⟩
  · unfold processEventTypes
    rw [if_pos h, if_pos (by decide : (["all".data].any
      (fun t => goToLower t == "all".data)) = true)]
  · unfold processEventTypes
    rw [if_pos h]

theorem all_shorthand_witness :
    (["WRITE".data, "ALL".data, "bogus".data].any
      (fun t => goToLower t == "all".data) = true) ∧
    processEventTypes ["WRITE".data, "ALL".data, "bogus".data] true =
      processEventTypes ["all".data] true :=
  ⟨by decide, (all_shorthand ["WRITE".data, "ALL".data, "bogus".data] true (by decide)).1⟩

/-- Claim C6: without the all shorthand, requesting one of the restricted
names open, read, closewrite, closeread on an unsupported platform makes
the run terminate with exit code 1 before the loop starts; resolution of
any other list of names never aborts, and unknown names contribute no
operation to the result. -/
theorem restricted_unsupported_fatal (cfg : Config)
    (hall : cfg.EventTypes.any (fun t => goToLower t == "all".data) = false) :
    ((∃ t ∈ cfg.EventTypes, goToLower t ∈ restrictedNames) →
      ∀ inputs : List LoopInput, runWatcher cfg false inputs = Except.error 1) ∧
    ((∀ t ∈ cfg.EventTypes, goToLower t ∉ restrictedNames) →
      ∃ l, processEventTypes cfg.EventTypes false = Except.ok l) ∧
    (∃ l, processEventTypes cfg.EventTypes true = Except.ok l) ∧
    (∀ (supported : Bool) (l : List (Nat × Bool)),
      processEventTypes cfg.EventTypes supported = Except.ok l →
      ∀ p ∈ l, ∃ t ∈ cfg.EventTypes, knownOp (goToLower t) = some p.1) := by
  have hAllFalse : ¬ (cfg.EventTypes.any (fun t => goToLower t == "all".data) = true) := by
    rw [hall]
    simp
  refine ⟨?_, ?_, ?_, ?_⟩
  · rintro ⟨t, ht, hrt⟩ inputs
    unfold runWatcher
    have herr : processEventTypes cfg.EventTypes false = Except.error 1 := by
      unfold processEventTypes
      rw [if_neg hAllFalse]
      exact (processLoop_err_iff _ _).mpr ⟨t, ht, hrt⟩
    rw [herr]
  · intro hno
    unfold processEventTypes
    rw [if_neg hAllFalse]
    exact processLoop_ok_of_no_restricted _ _ hno
  · unfold processEventTypes
    rw [if_neg hAllFalse]
    exact processLoop_ok_of_supported _ _
  · intro supported l hok p hp
    unfold processEventTypes at hok
    rw [if_neg hAllFalse] at hok
    rcases processLoop_ok_keys _ supported [] l hok p hp with hacc | hgood
    · simp at hacc
    · exact hgood

theorem restricted_unsupported_fatal_witness :
    runWatcher
      ⟨[".".data], [], ["*".data], ["open".data], "echo".data, false, 0, false⟩ false [] =
      Except.error 1 :=
  (restricted_unsupported_fatal
      ⟨[".".data], [], ["*".data], ["open".data], "echo".data, false, 0, false⟩
      (by decide)).1
    ⟨"open".data, by decide, by decide⟩ []

/-- Claim C3 counterexample: two iteration orders of the same allowed
map (a permutation, as Go map iteration may produce) give different
labels for a notification carrying both Create and Write, so filter is
not deterministic in its label across invocations. -/
theorem filterEvent_label_order_dependent :
    List.Perm [(opCreate, true), (opWrite, true)] [(opWrite, true), (opCreate, true)] ∧
    filterEvent ⟨"a.txt".data, opCreate ||| opWrite⟩ [(opCreate, true), (opWrite, true)]
        ["*".data] ≠
      filterEvent ⟨"a.txt".data, opCreate ||| opWrite⟩ [(opWrite, true), (opCreate, true)]
        ["*".data] :=
  ⟨List.Perm.swap (opWrite, true) (opCreate, true) [], by decide⟩

/-- Claim C3 amended: given the iteration order actually used for one
invocation, the label is determined: it is the label of the first entry
of that order that is allowed and present in the kind bitmask. -/
theorem filterEvent_label_first_in_order (ev : FsEvent) (iter : List (Nat × Bool))
    (pats : List GoStr) (d : EventData) (h : filterEvent ev iter pats = some d) :
    ∃ q : Nat × Bool, iter.find? (fun q => q.2 && hasOp ev.Op q.1) = some q ∧
      d.Event = opString q.1 := by
  simp only [filterEvent] at h
  rcases hft : findTrigger ev iter with _ | op
  · rw [hft] at h
    cases h
  rw [hft] at h
  have hfind := hft
  rw [findTrigger_eq_find] at hfind
  rcases hq : iter.find? (fun q => q.2 && hasOp ev.Op q.1) with _ | q
  · rw [hq] at hfind
    cases hfind
  rw [hq] at hfind
  simp only [Option.map] at hfind
  cases hfind
  dsimp only at h
  by_cases hm : anyPatternMatches pats (goBase ev.Name) = true
  · rw [if_pos hm] at h
    cases h
    exact ⟨q, hq, rfl⟩
  · rw [if_neg hm] at h
    cases h

theorem filterEvent_label_first_in_order_witness :
    ∃ q : Nat × Bool,
      [(opWrite, true)].find?
        (fun p => p.2 && hasOp (FsEvent.mk "a.txt".data opWrite).Op p.1) = some q ∧
      (EventData.mk "a.txt".data "a.txt".data "WRITE".data ".txt".data ".".data
        "a".data).Event = opString q.1 :=
  filterEvent_label_first_in_order ⟨"a.txt".data, opWrite⟩ [(opWrite, true)] ["*".data]
    ⟨"a.txt".data, "a.txt".data, "WRITE".data, ".txt".data, ".".data, "a".data⟩ (by decide)

/-- Claim C8: filter returns a non-empty result only if the base
filename of the path matches at least one pattern under glob semantics;
the exemplars from the specification hold, and a malformed pattern is
skipped without making filter fail. -/
theorem filter_pattern_gate :
    (∀ (ev : FsEvent) (iter : List (Nat × Bool)) (pats : List GoStr) (d : EventData),
      filterEvent ev iter pats = some d →
      d.Name = goBase ev.Name ∧ ∃ p ∈ pats, goMatch p (goBase ev.Name) = Except.ok true) ∧
    goMatch "*.go".data "main.go".data = Except.ok true ∧
    goMatch "*.go".data "main.go.bak".data = Except.ok false ∧
    goMatch "sample.*".data "sample.mkv".data = Except.ok true ∧
    goMatch "[".data "main.go".data = Except.error () ∧
    filterEvent ⟨"main.go".data, opWrite⟩ iterW ["[".data, "*.go".data] ≠ none := by
  refine ⟨?_, by decide, by decide, by decide, by decide, by decide⟩
  intro ev iter pats d h
  simp only [filterEvent] at h
  rcases hft : findTrigger ev iter with _ | op
  · rw [hft] at h
    cases h
  rw [hft] at h
  dsimp only at h
  by_cases hm : anyPatternMatches pats (goBase ev.Name) = true
  · rw [if_pos hm] at h
    cases h
    exact ⟨rfl, (anyPatternMatches_iff _ _).mp hm⟩
  · rw [if_neg hm] at h
    cases h

theorem filter_pattern_gate_witness :
    (EventData.mk "dir/main.go".data "main.go".data "WRITE".data ".go".data "dir".data
      "main".data).Name = goBase (FsEvent.mk "dir/main.go".data opWrite).Name ∧
    ∃ p ∈ ["*.go".data], goMatch p (goBase (FsEvent.mk "dir/main.go".data opWrite).Name) =
      Except.ok true :=
  filter_pattern_gate.1 ⟨"dir/main.go".data, opWrite⟩ iterW ["*.go".data]
    ⟨"dir/main.go".data, "main.go".data, "WRITE".data, ".go".data, "dir".data, "main".data⟩
    (by decide)

/-- Claim C1 counterexample: after a fatal error value is delivered on
the error channel, the loop is not in its terminal state and still
processes a later event (an executor invocation happens after the
error), contradicting that the first delivered error terminates the
loop. -/
theorem errorValue_does_not_terminate :
    (runTrace cfgZero iterW initState
      [LoopInput.watchErr, LoopInput.fsEvent 0 (rawWrite "a.txt".data)]).1.stopped = false ∧
    (runTrace cfgZero iterW initState
      [LoopInput.watchErr, LoopInput.fsEvent 0 (rawWrite "a.txt".data)]).2 ≠ [] := by
  constructor
  · decide
  · decide

/-- Claim C1 amended: an error value received on the error channel is
logged and leaves the loop state unchanged, and the loop keeps
processing; the loop reaches its terminal state exactly on closure of
the events channel or of the errors channel. -/
theorem error_channel_semantics (cfg : Config) (iter : List (Nat × Bool)) (s : CoordState)
    (h : s.stopped = false) :
    step cfg iter s LoopInput.watchErr = (s, []) ∧
    (step cfg iter s LoopInput.eventsClosed).1.stopped = true ∧
    (step cfg iter s LoopInput.errorsClosed).1.stopped = true := by
  refine ⟨?_, ?_, ?_⟩ <;> simp [step, h]

theorem error_channel_semantics_witness :
    step cfgZero iterW initState LoopInput.watchErr = (initState, []) :=
  (error_channel_semantics cfgZero iterW initState rfl).1

/-- Claim C2 counterexample: with zero debounce duration a filtered
event is written to the pendingEvent slot (lastEventData), so the state
is changed by the event, contradicting that the event is never stored. -/
theorem zero_debounce_stores_event :
    cfgZero.DebounceDelay = 0 ∧
    (step cfgZero iterW initState
      (LoopInput.fsEvent 0 (rawWrite "a.txt".data))).1.loop.lastEventData ≠ none := by
  constructor
  · rfl
  · decide

/-- Claim C2 amended: with zero debounce duration the callback is
invoked immediately, exactly once per filtered event, and no timer is
armed (the deadline is unchanged); the event is however stored in the
pendingEvent slot, where it stays inert because the timer is never
armed while the duration is zero. -/
theorem zero_debounce_immediate (cfg : Config) (iter : List (Nat × Bool)) (s : CoordState)
    (raw : RawInput) (ed : EventData) (t : Nat)
    (hz : cfg.DebounceDelay = 0) (hs : s.stopped = false)
    (hplain : plainEvent cfg raw = true)
    (hf : filterEvent raw.event iter cfg.Patterns = some ed) :
    step cfg iter s (LoopInput.fsEvent t raw) =
      (⟨⟨s.loop.deadline, some ed⟩, false⟩, [ed]) := by
  have hdc : isDirCreate cfg raw = false := by
    rw [plainEvent] at hplain
    simpa using hplain
  simp [step, hs, stepEvent, hdc, hf, dispatchEvent, hz]

theorem zero_debounce_immediate_witness :
    step cfgZero iterW initState (LoopInput.fsEvent 0 (rawWrite "a.txt".data)) =
      (⟨⟨none, some ⟨"a.txt".data, "a.txt".data, "WRITE".data, ".txt".data,
          ".".data, "a".data⟩⟩, false⟩,
       [⟨"a.txt".data, "a.txt".data, "WRITE".data, ".txt".data, ".".data, "a".data⟩]) :=
  zero_debounce_immediate cfgZero iterW initState (rawWrite "a.txt".data)
    ⟨"a.txt".data, "a.txt".data, "WRITE".data, ".txt".data, ".".data, "a".data⟩ 0
    rfl rfl (by decide) (by decide)

theorem synthEvents_eq_filter_map (patterns : List GoStr) (dirPath : GoStr) :
    ∀ entries : List DirEntry,
      synthEvents patterns dirPath entries =
        (entries.filter (fun e => !e.isDir && anyPatternMatches patterns e.name)).map
          (fun e => ⟨goJoin dirPath e.name, e.name, "CREATE".data, goExt e.name, dirPath,
            trimSuffix e.name (goExt e.name)⟩) := by
  intro entries
  induction entries with
  | nil => rfl
  | cons e rest ih =>
    by_cases h1 : e.isDir = true
    · have hsf : synthFor patterns dirPath e = none := by
        unfold synthFor
        rw [if_pos h1]
      have hfl : (!e.isDir && anyPatternMatches patterns e.name) = false := by
        rw [h1]
        rfl
      simp only [synthEvents, List.filterMap_cons, hsf, List.filter_cons, hfl,
        Bool.false_eq_true, if_false]
      exact ih
    · have h1b : e.isDir = false := by
        cases hb : e.isDir
        · rfl
        · exact absurd hb h1
      by_cases h2 : anyPatternMatches patterns e.name = true
      · have hsf : synthFor patterns dirPath e =
            some ⟨goJoin dirPath e.name, e.name, "CREATE".data, goExt e.name, dirPath,
              trimSuffix e.name (goExt e.name)⟩ := by
          unfold synthFor
          rw [if_neg h1, if_pos h2]
        have hfl : (!e.isDir && anyPatternMatches patterns e.name) = true := by
          rw [h1b, h2]
          rfl
        simp only [synthEvents, List.filterMap_cons, hsf, List.filter_cons, hfl, if_true,
          List.map_cons]
        exact congrArg (List.cons _) ih
      · have hsf : synthFor patterns dirPath e = none := by
          unfold synthFor
          rw [if_neg h1, if_neg h2]
        have hfl : (!e.isDir && anyPatternMatches patterns e.name) = false := by
          rw [h1b]
          cases hb : anyPatternMatches patterns e.name
          · rfl
          · exact absurd hb h2
        simp only [synthEvents, List.filterMap_cons, hsf, List.filter_cons, hfl,
          Bool.false_eq_true, if_false]
        exact ih

/-- Claim C7: in recursive mode, a Create notification whose path stats
as a directory is handled by the one-level scan: the step performs
exactly the dispatch, through the same debounce policy, of one
CREATE-labelled synthesized event per non-directory entry whose name
matches some pattern, and nothing else -- in particular the directory
event itself is suppressed and never reaches the normal filter. -/
theorem recursive_create_scan (cfg : Config) (iter : List (Nat × Bool)) (s : CoordState)
    (t : Nat) (raw : RawInput) (entries : List DirEntry)
    (hrec : isDirCreate cfg raw = true)
    (hrd : raw.readDir = Except.ok entries)
    (hs : s.stopped = false) :
    step cfg iter s (LoopInput.fsEvent t raw) =
      (⟨(dispatchList cfg t (synthEvents cfg.Patterns raw.event.Name entries) s.loop).1,
        false⟩,
       (dispatchList cfg t (synthEvents cfg.Patterns raw.event.Name entries) s.loop).2) ∧
    (∀ ed ∈ synthEvents cfg.Patterns raw.event.Name entries, ed.Event = "CREATE".data) ∧
    synthEvents cfg.Patterns raw.event.Name entries =
      (entries.filter (fun e => !e.isDir && anyPatternMatches cfg.Patterns e.name)).map
        (fun e => ⟨goJoin raw.event.Name e.name, e.name, "CREATE".data, goExt e.name,
          raw.event.Name, trimSuffix e.name (goExt e.name)⟩) := by
  refine ⟨?_, ?_, synthEvents_eq_filter_map _ _ _⟩
  · simp [step, hs, stepEvent, hrec, hrd, scanNewDir_eq_dispatchList]
  · intro ed hed
    rw [synthEvents_eq_filter_map] at hed
    rcases List.mem_map.mp hed with ⟨e, _, hse⟩
    rw [← hse]

theorem recursive_create_scan_witness :
    step cfgRec iterW initState (LoopInput.fsEvent 0 rawSubDir) =
      (initState, [⟨"sub/a.txt".data, "a.txt".data, "CREATE".data, ".txt".data, "sub".data,
        "a".data⟩]) :=
  ((recursive_create_scan cfgRec iterW initState 0 rawSubDir [⟨"a.txt".data, false⟩]
      (by decide) rfl rfl).1).trans (by decide)

theorem dispatchList_zero (cfg : Config) (now : Nat) (hz : cfg.DebounceDelay = 0) :
    ∀ (l : List EventData) (s : LoopState), dispatchList cfg now l s = (s, l) := by
  intro l
  induction l with
  | nil => intro s; rfl
  | cons ed rest ih =>
    intro s
    simp [dispatchList, dispatchSynth, hz, ih]

/-- Claim C10 (implicit): events synthesized by the recursive-create
scan bypass the allowed-kind set entirely: the handling of a
directory-creation notification is identical for every iteration order
of every allowed set (only pattern matching gates the synthesized
events), and with zero debounce the executor receives exactly the
pattern-matching entries even when the allowed set excludes Create. -/
theorem synth_bypasses_allowedSet (cfg : Config) (s : CoordState) (t : Nat)
    (raw : RawInput) (entries : List DirEntry)
    (hrec : isDirCreate cfg raw = true)
    (hrd : raw.readDir = Except.ok entries)
    (hs : s.stopped = false) :
    (∀ iter1 iter2 : List (Nat × Bool),
      step cfg iter1 s (LoopInput.fsEvent t raw) =
        step cfg iter2 s (LoopInput.fsEvent t raw)) ∧
    (cfg.DebounceDelay = 0 → ∀ iter : List (Nat × Bool),
      (step cfg iter s (LoopInput.fsEvent t raw)).2 =
        synthEvents cfg.Patterns raw.event.Name entries) := by
  have hstep : ∀ iter : List (Nat × Bool), step cfg iter s (LoopInput.fsEvent t raw) =
      (⟨(dispatchList cfg t (synthEvents cfg.Patterns raw.event.Name entries) s.loop).1,
        false⟩,
       (dispatchList cfg t (synthEvents cfg.Patterns raw.event.Name entries) s.loop).2) := by
    intro iter
    simp [step, hs, stepEvent, hrec, hrd, scanNewDir_eq_dispatchList]
  refine ⟨fun iter1 iter2 => (hstep iter1).trans (hstep iter2).symm, ?_⟩
  intro hz iter
  rw [hstep iter, dispatchList_zero cfg t hz]

theorem synth_bypasses_allowedSet_witness :
    (step cfgRec [] initState (LoopInput.fsEvent 0 rawSubDir)).2 =
      synthEvents cfgRec.Patterns rawSubDir.event.Name [⟨"a.txt".data, false⟩] :=
  (synth_bypasses_allowedSet cfgRec initState 0 rawSubDir [⟨"a.txt".data, false⟩]
    (by decide) rfl rfl).2 rfl []

theorem dispatchList_inv (cfg : Config) (now : Nat) :
    ∀ (l : List EventData) (s : LoopState),
      (s.deadline.isSome = true → s.lastEventData.isSome = true) →
      ((dispatchList cfg now l s).1.deadline.isSome = true →
        (dispatchList cfg now l s).1.lastEventData.isSome = true) := by
  intro l
  induction l with
  | nil => intro s h; exact h
  | cons ed rest ih =>
    intro s h
    simp only [dispatchList]
    apply ih
    unfold dispatchSynth
    by_cases h1 : cfg.DebounceDelay > 0
    · rw [if_pos h1]
      intro _
      rfl
    · rw [if_neg h1]
      exact h

theorem stepEvent_inv (cfg : Config) (iter : List (Nat × Bool)) (now : Nat)
    (raw : RawInput) (s : LoopState)
    (h : s.deadline.isSome = true → s.lastEventData.isSome = true) :
    ((stepEvent cfg iter now s raw).1.deadline.isSome = true →
      (stepEvent cfg iter now s raw).1.lastEventData.isSome = true) := by
  unfold stepEvent
  by_cases hdc : isDirCreate cfg raw = true
  · rw [if_pos hdc]
    rcases hrd : raw.readDir with e | entries
    · exact h
    · dsimp only
      rw [scanNewDir_eq_dispatchList]
      exact dispatchList_inv cfg now _ s h
  · rw [if_neg hdc]
    rcases hf : filterEvent raw.event iter cfg.Patterns with _ | ed
    · exact h
    · dsimp only
      unfold dispatchEvent
      by_cases h1 : cfg.DebounceDelay > 0
      · rw [if_pos h1]
        intro _
        rfl
      · rw [if_neg h1]
        intro _
        rfl

theorem step_inv (cfg : Config) (iter : List (Nat × Bool)) (s : CoordState) (i : LoopInput)
    (h : s.loop.deadline.isSome = true → s.loop.lastEventData.isSome = true) :
    ((step cfg iter s i).1.loop.deadline.isSome = true →
      (step cfg iter s i).1.loop.lastEventData.isSome = true) := by
  by_cases hs : s.stopped = true
  · simp only [step, hs, if_true]
    exact h
  · have hs2 : s.stopped = false := by
      cases hb : s.stopped
      · rfl
      · exact absurd hb hs
    cases i with
    | fsEvent t raw =>
      simp only [step, hs2, Bool.false_eq_true, if_false]
      exact stepEvent_inv cfg iter t raw s.loop h
    | timerFire t =>
      simp only [step, hs2, Bool.false_eq_true, if_false]
      rcases hl : s.loop.lastEventData with _ | ed
      · intro hd
        simp at hd
      · intro hd
        simp at hd
    | watchErr =>
      simp only [step, hs2, Bool.false_eq_true, if_false]
      exact h
    | eventsClosed =>
      simp only [step, hs2, Bool.false_eq_true, if_false]
      exact h
    | errorsClosed =>
      simp only [step, hs2, Bool.false_eq_true, if_false]
      exact h

/-- Claim C9: in every state reachable by the coordinator loop from its
initial state, an armed timer implies a non-empty pendingEvent slot,
and on timer elapse the stored event is handed to the executor and
cleared within the same iteration, returning the loop to idle. -/
theorem debounce_state_invariant (cfg : Config) (iter : List (Nat × Bool)) (s : CoordState)
    (h : Reachable cfg iter s) :
    (s.loop.deadline.isSome = true → s.loop.lastEventData.isSome = true) ∧
    (∀ (t : Nat) (ed : EventData), s.stopped = false → s.loop.lastEventData = some ed →
      step cfg iter s (LoopInput.timerFire t) =
        (⟨⟨none, none⟩, false⟩, [ed])) := by
  constructor
  · induction h with
    | init => intro hd; cases hd
    | next i hr ih => exact step_inv cfg iter _ i ih
  · intro t ed hs hl
    simp [step, hs, hl]

theorem debounce_state_invariant_witness :
    (((step cfgDeb iterW initState
        (LoopInput.fsEvent 0 (rawWrite "a.txt".data))).1.loop.deadline.isSome = true →
      (step cfgDeb iterW initState
        (LoopInput.fsEvent 0 (rawWrite "a.txt".data))).1.loop.lastEventData.isSome = true) ∧
    (∀ (t : Nat) (ed : EventData),
      (step cfgDeb iterW initState
        (LoopInput.fsEvent 0 (rawWrite "a.txt".data))).1.stopped = false →
      (step cfgDeb iterW initState
        (LoopInput.fsEvent 0 (rawWrite "a.txt".data))).1.loop.lastEventData = some ed →
      step cfgDeb iterW (step cfgDeb iterW initState
          (LoopInput.fsEvent 0 (rawWrite "a.txt".data))).1 (LoopInput.timerFire t) =
        (⟨⟨none, none⟩, false⟩, [ed]))) :=
  debounce_state_invariant cfgDeb iterW _
    (Reachable.next (LoopInput.fsEvent 0 (rawWrite "a.txt".data)) Reachable.init)

theorem runTrace_append (cfg : Config) (iter : List (Nat × Bool)) :
    ∀ (l1 l2 : List LoopInput) (s : CoordState),
      runTrace cfg iter s (l1 ++ l2) =
        ((runTrace cfg iter (runTrace cfg iter s l1).1 l2).1,
         (runTrace cfg iter s l1).2 ++ (runTrace cfg iter (runTrace cfg iter s l1).1 l2).2) := by
  intro l1
  induction l1 with
  | nil =>
    intro l2 s
    simp [runTrace]
  | cons i rest ih =>
    intro l2 s
    simp only [List.cons_append, runTrace, List.append_eq, ih, List.append_assoc]

theorem wellTimedFrom_append (cfg : Config) (iter : List (Nat × Bool)) :
    ∀ (l1 l2 : List LoopInput) (s : CoordState) (now : Nat),
      wellTimedFrom cfg iter s now (l1 ++ l2) =
        (wellTimedFrom cfg iter s now l1 &&
         wellTimedFrom cfg iter (runTrace cfg iter s l1).1 (traceClock now l1) l2) := by
  intro l1
  induction l1 with
  | nil =>
    intro l2 s now
    simp [wellTimedFrom, runTrace, traceClock]
  | cons i rest ih =>
    intro l2 s now
    cases i with
    | fsEvent t raw =>
      simp only [List.cons_append, wellTimedFrom, runTrace, traceClock, List.append_eq, ih,
        Bool.and_assoc]
    | timerFire t =>
      simp only [List.cons_append, wellTimedFrom, runTrace, traceClock, List.append_eq, ih,
        Bool.and_assoc]
    | watchErr =>
      simp only [List.cons_append, wellTimedFrom, runTrace, traceClock, List.append_eq, ih]
    | eventsClosed =>
      simp only [List.cons_append, wellTimedFrom, runTrace, traceClock, List.append_eq, ih]
    | errorsClosed =>
      simp only [List.cons_append, wellTimedFrom, runTrace, traceClock, List.append_eq, ih]

theorem step_plain_debounce (cfg : Config) (iter : List (Nat × Bool))
    (hd : 0 < cfg.DebounceDelay) (s : LoopState) (t : Nat) (raw : RawInput) (ed : EventData)
    (hdc : isDirCreate cfg raw = false)
    (hf : filterEvent raw.event iter cfg.Patterns = some ed) :
    step cfg iter ⟨s, false⟩ (LoopInput.fsEvent t raw) =
      (⟨⟨some (t + cfg.DebounceDelay), some ed⟩, false⟩, []) := by
  simp [step, stepEvent, hdc, hf, dispatchEvent, hd]

theorem burstTrace_cons (p : Nat × RawInput) (l : List (Nat × RawInput)) :
    burstTrace (p :: l) = LoopInput.fsEvent p.1 p.2 :: burstTrace l := rfl

theorem runTrace_cons (cfg : Config) (iter : List (Nat × Bool)) (s : CoordState)
    (i : LoopInput) (l : List LoopInput) :
    runTrace cfg iter s (i :: l) =
      ((runTrace cfg iter (step cfg iter s i).1 l).1,
       (step cfg iter s i).2 ++ (runTrace cfg iter (step cfg iter s i).1 l).2) := rfl

theorem wellTimedFrom_cons_fsEvent (cfg : Config) (iter : List (Nat × Bool))
    (s : CoordState) (now t : Nat) (raw : RawInput) (l : List LoopInput) :
    wellTimedFrom cfg iter s now (LoopInput.fsEvent t raw :: l) =
      (decide (now ≤ t) &&
       (match s.loop.deadline with
        | none => true
        | some dl => decide (t ≤ dl)) &&
       wellTimedFrom cfg iter (step cfg iter s (LoopInput.fsEvent t raw)).1 t l) := rfl

theorem traceClock_cons_fsEvent (now t : Nat) (raw : RawInput) (l : List LoopInput) :
    traceClock now (LoopInput.fsEvent t raw :: l) = traceClock t l := rfl

theorem burst_run (cfg : Config) (iter : List (Nat × Bool)) (hd : 0 < cfg.DebounceDelay) :
    ∀ (raws : List (Nat × RawInput)) (p0 : Nat × RawInput) (s : LoopState) (now : Nat),
      (∀ p ∈ p0 :: raws, plainEvent cfg p.2 = true) →
      (∀ p ∈ p0 :: raws, (filterEvent p.2.event iter cfg.Patterns).isSome = true) →
      gapsOk cfg.DebounceDelay (p0 :: raws) = true →
      now ≤ p0.1 →
      (∀ dl : Nat, s.deadline = some dl → p0.1 ≤ dl) →
      runTrace cfg iter ⟨s, false⟩ (burstTrace (p0 :: raws)) =
        (⟨⟨some (((p0 :: raws).getLast (List.cons_ne_nil p0 raws)).1 + cfg.DebounceDelay),
           filterEvent ((p0 :: raws).getLast (List.cons_ne_nil p0 raws)).2.event iter
             cfg.Patterns⟩, false⟩, []) ∧
      wellTimedFrom cfg iter ⟨s, false⟩ now (burstTrace (p0 :: raws)) = true ∧
      traceClock now (burstTrace (p0 :: raws)) =
        ((p0 :: raws).getLast (List.cons_ne_nil p0 raws)).1 := by
  intro raws
  induction raws with
  | nil =>
    intro p0 s now hplain hfilt hgaps hnow hdl
    obtain ⟨ed, hed⟩ := Option.isSome_iff_exists.mp (hfilt p0 (List.mem_cons_self _ _))
    have hdc : isDirCreate cfg p0.2 = false := by
      have hp := hplain p0 (List.mem_cons_self _ _)
      rw [plainEvent] at hp
      simpa using hp
    have hstep := step_plain_debounce cfg iter hd s p0.1 p0.2 ed hdc hed
    have hn : decide (now ≤ p0.1) = true := by simpa using hnow
    have hgl : (p0 :: ([] : List (Nat × RawInput))).getLast (List.cons_ne_nil p0 []) = p0 :=
      rfl
    refine ⟨?_, ?_, ?_⟩
    · rw [burstTrace_cons, runTrace_cons, hstep, hgl, hed]
      rfl
    · rw [burstTrace_cons, wellTimedFrom_cons_fsEvent, hstep, hn]
      dsimp only
      cases hsd : s.deadline with
      | none => rfl
      | some dl => simp [hdl dl hsd, burstTrace, wellTimedFrom]
    · rfl
  | cons p1 rest ih =>
    intro p0 s now hplain hfilt hgaps hnow hdl
    obtain ⟨ed, hed⟩ := Option.isSome_iff_exists.mp (hfilt p0 (List.mem_cons_self _ _))
    have hdc : isDirCreate cfg p0.2 = false := by
      have hp := hplain p0 (List.mem_cons_self _ _)
      rw [plainEvent] at hp
      simpa using hp
    have hstep := step_plain_debounce cfg iter hd s p0.1 p0.2 ed hdc hed
    have hn : decide (now ≤ p0.1) = true := by simpa using hnow
    have hg0 : p0.1 ≤ p1.1 ∧ p1.1 < p0.1 + cfg.DebounceDelay ∧
        gapsOk cfg.DebounceDelay (p1 :: rest) = true := by
      have hh := hgaps
      simp only [gapsOk] at hh
      simpa [and_assoc] using hh
    have ihh := ih p1 ⟨some (p0.1 + cfg.DebounceDelay), some ed⟩ p0.1
      (fun p hp => hplain p (List.mem_cons_of_mem p0 hp))
      (fun p hp => hfilt p (List.mem_cons_of_mem p0 hp))
      hg0.2.2 hg0.1
      (fun dl hdl2 => by
        have hdl3 : some (p0.1 + cfg.DebounceDelay) = some dl := hdl2
        cases hdl3
        exact Nat.le_of_lt hg0.2.1)
    have hgl : (p0 :: p1 :: rest).getLast (List.cons_ne_nil p0 (p1 :: rest)) =
        (p1 :: rest).getLast (List.cons_ne_nil p1 rest) :=
      List.getLast_cons (List.cons_ne_nil p1 rest)
    refine ⟨?_, ?_, ?_⟩
    · rw [burstTrace_cons, runTrace_cons, hstep, hgl]
      dsimp only
      rw [ihh.1, List.nil_append]
    · rw [burstTrace_cons, wellTimedFrom_cons_fsEvent, hstep, hn]
      dsimp only
      rw [ihh.2.1]
      cases hsd : s.deadline with
      | none => rfl
      | some dl => simp [hdl dl hsd]
    · rw [burstTrace_cons, traceClock_cons_fsEvent, ihh.2.2, hgl]

/-- Claim C4: for a configured duration d above zero and a burst of
filtered events whose successive gaps are all below d, the canonical
loop execution (the burst followed by the timer firing at the last
timestamp plus d) is well timed; no executor invocation happens during
the burst, exactly one happens in total, it carries the filtered data
of the last event of the burst (earlier pending events are overwritten,
not queued), it happens at the last timestamp plus d, and the loop
returns to idle. -/
theorem debounce_coalesces (cfg : Config) (iter : List (Nat × Bool))
    (hd : 0 < cfg.DebounceDelay) (p0 : Nat × RawInput) (raws : List (Nat × RawInput))
    (hplain : ∀ p ∈ p0 :: raws, plainEvent cfg p.2 = true)
    (hfilt : ∀ p ∈ p0 :: raws, (filterEvent p.2.event iter cfg.Patterns).isSome = true)
    (hgaps : gapsOk cfg.DebounceDelay (p0 :: raws) = true) :
    (runTrace cfg iter initState (burstTrace (p0 :: raws))).2 = [] ∧
    wellTimedFrom cfg iter initState 0 (burstTrace (p0 :: raws) ++
      [LoopInput.timerFire (((p0 :: raws).getLast (List.cons_ne_nil p0 raws)).1 +
        cfg.DebounceDelay)]) = true ∧
    (runTrace cfg iter initState (burstTrace (p0 :: raws) ++
      [LoopInput.timerFire (((p0 :: raws).getLast (List.cons_ne_nil p0 raws)).1 +
        cfg.DebounceDelay)])).2 =
      (filterEvent ((p0 :: raws).getLast (List.cons_ne_nil p0 raws)).2.event iter
        cfg.Patterns).toList ∧
    (runTrace cfg iter initState (burstTrace (p0 :: raws) ++
      [LoopInput.timerFire (((p0 :: raws).getLast (List.cons_ne_nil p0 raws)).1 +
        cfg.DebounceDelay)])).1 = initState := by
  obtain ⟨hrun, hwt, hclock⟩ := burst_run cfg iter hd raws p0 ⟨none, none⟩ 0
    hplain hfilt hgaps (Nat.zero_le _) (fun dl h => by cases h)
  obtain ⟨edN, hedN⟩ := Option.isSome_iff_exists.mp
    (hfilt _ (List.getLast_mem (List.cons_ne_nil p0 raws)))
  rw [hedN] at hrun
  have hrun2 : runTrace cfg iter initState (burstTrace (p0 :: raws)) =
      (⟨⟨some (((p0 :: raws).getLast (List.cons_ne_nil p0 raws)).1 + cfg.DebounceDelay),
        some edN⟩, false⟩, []) := hrun
  have hwt2 : wellTimedFrom cfg iter initState 0 (burstTrace (p0 :: raws)) = true := hwt
  refine ⟨?_, ?_, ?_, ?_⟩
  · rw [hrun2]
  · rw [wellTimedFrom_append, hwt2, hrun2, hclock]
    simp [wellTimedFrom, Nat.le_add_right]
  · rw [runTrace_append, hrun2, hedN]
    simp [runTrace, step]
  · rw [runTrace_append, hrun2]
    simp [runTrace, step, initState]

theorem debounce_coalesces_witness :
    (runTrace cfgDeb iterW initState
      (burstTrace [(0, rawWrite "a".data), (3, rawWrite "b".data)])).2 = [] ∧
    wellTimedFrom cfgDeb iterW initState 0
      (burstTrace [(0, rawWrite "a".data), (3, rawWrite "b".data)] ++
        [LoopInput.timerFire
          (([(0, rawWrite "a".data), (3, rawWrite "b".data)].getLast
            (List.cons_ne_nil (0, rawWrite "a".data) [(3, rawWrite "b".data)])).1 +
            cfgDeb.DebounceDelay)]) = true ∧
    (runTrace cfgDeb iterW initState
      (burstTrace [(0, rawWrite "a".data), (3, rawWrite "b".data)] ++
        [LoopInput.timerFire
          (([(0, rawWrite "a".data), (3, rawWrite "b".data)].getLast
            (List.cons_ne_nil (0, rawWrite "a".data) [(3, rawWrite "b".data)])).1 +
            cfgDeb.DebounceDelay)])).2 =
      (filterEvent ([(0, rawWrite "a".data), (3, rawWrite "b".data)].getLast
          (List.cons_ne_nil (0, rawWrite "a".data) [(3, rawWrite "b".data)])).2.event iterW
        cfgDeb.Patterns).toList ∧
    (runTrace cfgDeb iterW initState
      (burstTrace [(0, rawWrite "a".data), (3, rawWrite "b".data)] ++
        [LoopInput.timerFire
          (([(0, rawWrite "a".data), (3, rawWrite "b".data)].getLast
            (List.cons_ne_nil (0, rawWrite "a".data) [(3, rawWrite "b".data)])).1 +
            cfgDeb.DebounceDelay)])).1 = initState :=
  debounce_coalesces cfgDeb iterW (by decide) (0, rawWrite "a".data)
    [(3, rawWrite "b".data)] (by decide) (by decide) (by decide)
